import Mathlib

/-!
Shallow embedding of the convenio-extraction engine (src/script.py,
class ConvenioExtractor).  Text is modelled as `List Char`; every Python
regular expression is translated into an explicit scanning function with
the same leftmost-match and greediness behaviour.
-/

set_option maxRecDepth 8000

/-- Character list of a string literal. -/
def chars (x : String) : List Char := x.data

/-- Python `str.lower` / `re.IGNORECASE` on one character, over the
document alphabet (ASCII plus the Spanish accented letters). -/
def lowerChar (c : Char) : Char :=
  if 'A' ≤ c ∧ c ≤ 'Z' then Char.ofNat (c.toNat + 32)
  else if c = 'Á' then 'á' else if c = 'É' then 'é'
  else if c = 'Í' then 'í' else if c = 'Ó' then 'ó'
  else if c = 'Ú' then 'ú' else if c = 'Ñ' then 'ñ'
  else if c = 'Ü' then 'ü' else c

/-- Python `str.lower` on a text. -/
def lowerL (l : List Char) : List Char := l.map lowerChar

/-- Python regex `\w` over the document alphabet. -/
def isWordChar (c : Char) : Bool :=
  c.isAlphanum || c = '_' ||
  (c ∈ ['á', 'é', 'í', 'ó', 'ú', 'ñ', 'ü', 'Á', 'É', 'Í', 'Ó', 'Ú', 'Ñ', 'Ü'])

/-- Python regex `\s` / `str.strip` whitespace. -/
def isPySpace (c : Char) : Bool :=
  c = ' ' || c = '\t' || c = '\n' || c = '\r' || c = '\x0b' || c = '\x0c'

/-- Python regex `\d`. -/
def isDig (c : Char) : Bool := '0' ≤ c && c ≤ '9'

/-- Exact (case-sensitive) list-prefix test. -/
def isPrefL : List Char → List Char → Bool
  | [], _ => true
  | _ :: _, [] => false
  | a :: as, b :: bs => a = b && isPrefL as bs

/-- Case-insensitive prefix test: the key is already lowercase, the text
is lowered character by character. -/
def ciPref : List Char → List Char → Bool
  | [], _ => true
  | _ :: _, [] => false
  | k :: ks, t :: ts => lowerChar t = k && ciPref ks ts

/-- Python `key in text` (exact substring containment). -/
def containsSub (key : List Char) : List Char → Bool
  | [] => isPrefL key []
  | c :: rest => isPrefL key (c :: rest) || containsSub key rest

/-- Word-boundary test on the character before a candidate match. -/
def boundaryB : Option Char → Bool
  | none => true
  | some c => !isWordChar c

/-- Word-boundary test on the text following a candidate match. -/
def afterB : List Char → Bool
  | [] => true
  | c :: _ => !isWordChar c

/-- Scanner for `re.search(r'\b<key>\b', text, re.IGNORECASE)` where the
key consists of word characters and inner spaces: at each position,
match the key case-insensitively with non-word (or absent) characters on
both sides.  `prev` is the character just before the current suffix. -/
def wwAux (key : List Char) : Option Char → List Char → Bool
  | prev, [] => boundaryB prev && ciPref key [] && afterB (List.drop key.length [])
  | prev, c :: rest =>
    (boundaryB prev && ciPref key (c :: rest) &&
      afterB (List.drop key.length (c :: rest))) ||
    wwAux key (some c) rest

/-- Whole-word, case-insensitive occurrence of a taxonomy term. -/
def wholeWordOccurs (key text : List Char) : Bool := wwAux key none text

/-- Ordered taxonomy lookup by whole-word match (the
`for tipo_key, tipo_value in ... if re.search(r'\b'+key+r'\b', ...)`
loops): first declared term that occurs wins, else the default. -/
def findTable : List (List Char × List Char) → List Char → List Char → List Char
  | [], _, d => d
  | (k, v) :: rest, text, d =>
    if wholeWordOccurs k text then v else findTable rest text d

/-- Ordered taxonomy lookup by plain substring containment (the
`if tipo_key in name.lower()` loops). -/
def subLookup : List (List Char × List Char) → List Char → List Char → List Char
  | [], _, d => d
  | (k, v) :: rest, t, d => if containsSub k t then v else subLookup rest t d

/-- `self.tipos_convenio`: ordered agreement-type table (dict literal
order of the source). -/
def tipos_convenio : List (List Char × List Char) :=
  [ (chars "acta acuerdo", chars "Acta Acuerdo"),
    (chars "acta complemento", chars "Acta Complemento"),
    (chars "acta compromiso", chars "Acta Compromiso"),
    (chars "acta especifica", chars "Acta Especifica"),
    (chars "acuerdo", chars "Acuerdo"),
    (chars "acuerdo complementario", chars "Acuerdo Complementario"),
    (chars "acuerdo cooperacion", chars "Acuerdo Cooperacion"),
    (chars "acuerdo especifico", chars "Acuerdo Especifico"),
    (chars "acuerdo investigacion", chars "Acuerdo Investigacion"),
    (chars "adenda", chars "Adenda"),
    (chars "adhesion", chars "Adhesion"),
    (chars "anexo", chars "Anexo"),
    (chars "comision de estudio", chars "Comision de Estudio"),
    (chars "carta intencion", chars "Carta Intencion"),
    (chars "especifico", chars "Especifico"),
    (chars "general", chars "General"),
    (chars "marco", chars "Marco"),
    (chars "marco de colaboracion", chars "Marco de Colaboracion"),
    (chars "marco de cooperacion", chars "Marco de Cooperacion"),
    (chars "marco de investigacion", chars "Marco de Investigacion"),
    (chars "marco de intercambio", chars "Marco de Intercambio"),
    (chars "marco de intercambio de alumnos", chars "Marco de Intercambio de Alumnos"),
    (chars "marco de pasantias", chars "Marco de Pasantias"),
    (chars "memorandum", chars "Memorandum"),
    (chars "memorandum de entendimiento", chars "Memorandum de Entendimiento"),
    (chars "pps", chars "PPS"),
    (chars "protocolo", chars "Protocolo"),
    (chars "protocolo adicional", chars "Protocolo Adicional"),
    (chars "protocolo de colaboracion", chars "Protocolo de Colaboracion"),
    (chars "protocolo especifico", chars "Protocolo Especifico"),
    (chars "protocolo de investigacion", chars "Protocolo de Investigacion"),
    (chars "proyecto", chars "Proyecto"),
    (chars "subvencion", chars "Subvencion"),
    (chars "transferencia tecnologica", chars "Transferencia Tecnologica") ]

/-- `self.tipos_institucion`: ordered institution-type table. -/
def tipos_institucion : List (List Char × List Char) :=
  [ (chars "agencia", chars "Agencia"),
    (chars "agremiacion", chars "Agremiacion"),
    (chars "asociacion", chars "Asociacion"),
    (chars "club", chars "Club"),
    (chars "educativa", chars "Educativa"),
    (chars "empresa", chars "Empresa"),
    (chars "ente", chars "Ente"),
    (chars "fundacion", chars "Fundacion"),
    (chars "gobierno", chars "Gobierno"),
    (chars "gubernamental", chars "Gubernamental"),
    (chars "investigadora", chars "Investigadora"),
    (chars "instituto", chars "Instituto"),
    (chars "nacional", chars "Nacional"),
    (chars "municipal", chars "Municipal"),
    (chars "salud", chars "Salud"),
    (chars "sindical", chars "Sindical"),
    (chars "social", chars "Social"),
    (chars "ong", chars "ONG"),
    (chars "universitaria", chars "Universitaria"),
    (chars "universidad", chars "Universitaria"),
    (chars "provincia", chars "Gubernamental"),
    (chars "ministerio", chars "Gubernamental"),
    (chars "direccion", chars "Gubernamental") ]

/-- `self.tipos_renovacion`: ordered renewal-type table. -/
def tipos_renovacion : List (List Char × List Char) :=
  [ (chars "partes iguales", chars "Partes Iguales"),
    (chars "escalera", chars "Escalera"),
    (chars "unica", chars "Unica"),
    (chars "sin renovacion", chars "Sin Renovacion"),
    (chars "renovable", chars "Renovable de Comun Acuerdo"),
    (chars "renovable de comun acuerdo", chars "Renovable de Comun Acuerdo") ]

/-- `self.cargos`: ordered signer-title table. -/
def cargos : List (List Char × List Char) :=
  [ (chars "rector", chars "Rector/a"),
    (chars "rectora", chars "Rector/a"),
    (chars "vicerrector", chars "Vicerrector/a"),
    (chars "vicerrectora", chars "Vicerrector/a"),
    (chars "secretario", chars "Secretario/a"),
    (chars "secretaria", chars "Secretario/a"),
    (chars "coordinador", chars "Coordinador/a"),
    (chars "coordinadora", chars "Coordinador/a"),
    (chars "decano", chars "Decano/a"),
    (chars "decana", chars "Decano/a"),
    (chars "vicedecano", chars "Vicedecano/a"),
    (chars "vicedecana", chars "Vicedecano/a"),
    (chars "director", chars "Director/a"),
    (chars "directora", chars "Director/a"),
    (chars "investigador", chars "Investigador/a"),
    (chars "investigadora", chars "Investigador/a"),
    (chars "ministro", chars "Director/a"),
    (chars "ministra", chars "Director/a"),
    (chars "interventor", chars "Director/a"),
    (chars "interventora", chars "Director/a") ]

/-- The 12-entry Spanish month table (`month_map`). -/
def month_map : List (List Char × List Char) :=
  [ (chars "enero", chars "01"), (chars "febrero", chars "02"),
    (chars "marzo", chars "03"), (chars "abril", chars "04"),
    (chars "mayo", chars "05"), (chars "junio", chars "06"),
    (chars "julio", chars "07"), (chars "agosto", chars "08"),
    (chars "septiembre", chars "09"), (chars "octubre", chars "10"),
    (chars "noviembre", chars "11"), (chars "diciembre", chars "12") ]

/-- Association lookup with default (`dict.get(key, default)`). -/
def assocD (k : List Char) : List (List Char × List Char) → List Char → List Char
  | [], d => d
  | (a, b) :: rest, d => if k = a then b else assocD k rest d

/-- Python `str.zfill(2)` on a captured digit group. -/
def pyZfill2 (l : List Char) : List Char :=
  if l.length < 2 then List.replicate (2 - l.length) '0' ++ l else l

/-- Python `int(...)` on a digit string. -/
def digitsToNat (l : List Char) : Nat :=
  l.foldl (fun acc c => acc * 10 + (c.toNat - 48)) 0

/-- The pivot-at-50 expansion applied to a captured year token: exactly
two digits expand to 19xx when the value exceeds 50, else to 20xx
(lines 297-298 and 360-361 of the source). -/
def expand_two_digit_year (y : List Char) : List Char :=
  if y.length = 2 then
    (if 50 < digitsToNat y then chars "19" ++ y else chars "20" ++ y)
  else y

/-- Python `str.strip()`. -/
def pyStrip (l : List Char) : List Char :=
  ((l.dropWhile isPySpace).reverse.dropWhile isPySpace).reverse

/-- Length of the maximal leading run satisfying `p` (maximal munch for
greedy `\s*`, `\s+`, `\w+`, `\d+`). -/
def countWhile (p : Char → Bool) (l : List Char) : Nat := (l.takeWhile p).length

/-- `(\d{4})`: exactly four digit characters. -/
def takeDigits4 : List Char → Option (List Char × List Char)
  | a :: b :: c :: d :: rest =>
    if isDig a && isDig b && isDig c && isDig d then some ([a, b, c, d], rest)
    else none
  | _ => none

/-- `(\d{2,4})` at the end of a pattern: greedily two to four digits. -/
def takeD24 : List Char → Option (List Char)
  | a :: b :: rest =>
    if isDig a && isDig b then
      match rest with
      | c :: rest2 =>
        if isDig c then
          match rest2 with
          | d :: _ => if isDig d then some [a, b, c, d] else some [a, b, c]
          | [] => some [a, b, c]
        else some [a, b]
      | [] => some [a, b]
    else none
  | _ => none

/-- `(\d{1,2})` followed by one separator from `seps` (greedy day with
the backtracking from two digits to one that the separator forces). -/
def d12sep (seps : List Char) : List Char → Option (List Char × List Char)
  | c1 :: rest1 =>
    if isDig c1 then
      match rest1 with
      | c2 :: rest2 =>
        if isDig c2 then
          match rest2 with
          | c3 :: rest3 => if c3 ∈ seps then some ([c1, c2], rest3) else none
          | [] => none
        else if c2 ∈ seps then some ([c1], rest2) else none
      | [] => none
    else none
  | [] => none

/-- `(\d{1,2})` at the end of a pattern: greedily two digits, else one. -/
def d12end : List Char → Option (List Char)
  | c1 :: rest1 =>
    if isDig c1 then
      match rest1 with
      | c2 :: _ => if isDig c2 then some [c1, c2] else some [c1]
      | [] => some [c1]
    else none
  | [] => none

/-- Tail `\s+de\s+(\w+)\s+de\s+(\d{4})` of the spelled Spanish date
pattern, returning the month word and the year. -/
def matchMesYear (l : List Char) : Option (List Char × List Char) :=
  let w1 := countWhile isPySpace l
  if w1 = 0 then none else
  let l1 := l.drop w1
  if ciPref (chars "de") l1 then
    let l2 := l1.drop 2
    let w2 := countWhile isPySpace l2
    if w2 = 0 then none else
    let l3 := l2.drop w2
    let m := l3.takeWhile isWordChar
    if m.length = 0 then none else
    let l4 := l3.drop m.length
    let w3 := countWhile isPySpace l4
    if w3 = 0 then none else
    let l5 := l4.drop w3
    if ciPref (chars "de") l5 then
      let w4 := countWhile isPySpace (l5.drop 2)
      if w4 = 0 then none else
      match takeDigits4 ((l5.drop 2).drop w4) with
      | some (y, _) => some (m, y)
      | none => none
    else none
  else none

/-- `(\d{1,2})\s+de\s+(\w+)\s+de\s+(\d{4})` anchored at the current
position: day, month word, year. -/
def matchSpelledAt : List Char → Option (List Char × List Char × List Char)
  | [] => none
  | c1 :: rest1 =>
    if isDig c1 then
      match rest1 with
      | c2 :: rest2 =>
        if isDig c2 then
          match matchMesYear rest2 with
          | some (m, y) => some ([c1, c2], m, y)
          | none =>
            match matchMesYear rest1 with
            | some (m, y) => some ([c1], m, y)
            | none => none
        else
          match matchMesYear rest1 with
          | some (m, y) => some ([c1], m, y)
          | none => none
      | [] => none
    else none

/-- `re.search`: try the anchored matcher at every position from the
left; the first position that matches wins. -/
def searchL (f : List Char → Option α) : List Char → Option α
  | [] => f []
  | c :: rest =>
    match f (c :: rest) with
    | some r => some r
    | none => searchL f rest

/-- `(\d{1,2})/(\d{1,2})/(\d{4})` anchored at the current position. -/
def matchSlashAt (l : List Char) : Option (List Char × List Char × List Char) :=
  match d12sep ['/'] l with
  | some (d, r1) =>
    match d12sep ['/'] r1 with
    | some (m, r2) =>
      match takeDigits4 r2 with
      | some (y, _) => some (d, m, y)
      | none => none
    | none => none
  | none => none

/-- `(\d{4})-(\d{1,2})-(\d{1,2})` anchored at the current position. -/
def matchDashAt (l : List Char) : Option (List Char × List Char × List Char) :=
  match takeDigits4 l with
  | some (y, r1) =>
    match r1 with
    | '-' :: r2 =>
      match d12sep ['-'] r2 with
      | some (m, r3) =>
        match d12end r3 with
        | some d => some (y, m, d)
        | none => none
      | none => none
    | _ => none
  | none => none

/-- The f-string `f"{year}-{month.zfill(2)}-{day.zfill(2)}"`. -/
def mkFecha (y m d : List Char) : List Char :=
  y ++ '-' :: (pyZfill2 m ++ '-' :: pyZfill2 d)

/-- The shared numeric-date branch: group 1 of length four means
ISO-ordered input (`YYYY-M-D`), otherwise day-first input. -/
def formatDirect (g1 g2 g3 : List Char) : List Char :=
  if g1.length = 4 then mkFecha g1 g2 g3 else mkFecha g3 g2 g1

/-- Resolution `fecha`: the three `date_patterns` tried in order
(spelled Spanish date, slash date, dash date); first match wins. -/
def res_fecha (text : List Char) : List Char :=
  match searchL matchSpelledAt text with
  | some (d, mname, y) => mkFecha y (assocD (lowerL mname) month_map (chars "01")) d
  | none =>
    match searchL matchSlashAt text with
    | some (d, m, y) => formatDirect d m y
    | none =>
      match searchL matchDashAt text with
      | some (y, m, d) => formatDirect y m d
      | none => []

/-- `expediente\s*n[°º]?\s*(\d+)[/\-](\d{2,4})` (case-insensitive)
anchored at the current position: case-file number and year token. -/
def matchExpedienteAt (l : List Char) : Option (List Char × List Char) :=
  if ciPref (chars "expediente") l then
    let l1 := l.drop 10
    let l2 := l1.drop (countWhile isPySpace l1)
    match l2 with
    | c :: rest =>
      if lowerChar c = 'n' then
        let l3 := match rest with
          | c2 :: rest2 => if c2 = '°' ∨ c2 = 'º' then rest2 else rest
          | [] => ([] : List Char)
        let l4 := l3.drop (countWhile isPySpace l3)
        let ds := l4.takeWhile isDig
        if ds.length = 0 then none else
        match l4.drop ds.length with
        | sep :: r5 =>
          if sep = '/' ∨ sep = '-' then
            match takeD24 r5 with
            | some y => some (ds, y)
            | none => none
          else none
        | [] => none
      else none
    | [] => none
  else none

/-- `R-DR-(\d{4})-(\d{3,4})\.pdf` (case-sensitive) anchored at the
current position: locator year and resolution number. -/
def matchUrlAt (l : List Char) : Option (List Char × List Char) :=
  if isPrefL (chars "R-DR-") l then
    match takeDigits4 (l.drop 5) with
    | some (y, r1) =>
      match r1 with
      | '-' :: r2 =>
        match r2 with
        | a :: b :: c :: r3 =>
          if isDig a && isDig b && isDig c then
            match r3 with
            | d :: r4 =>
              if isDig d then
                (if isPrefL (chars ".pdf") r4 then some (y, [a, b, c, d]) else none)
              else (if isPrefL (chars ".pdf") r3 then some (y, [a, b, c]) else none)
            | [] => none
          else none
        | _ => none
      | _ => none
    | none => none
  else none

structure ResolutionData where
  numero : List Char
  fecha : List Char
  tipo : List Char
  expediente_numero : List Char
  expediente_anio : List Char
  dependencia_id : List Char
  link : List Char
deriving DecidableEq

/-- `extract_resolution_data`: locator parsing, text date, case-file
number/year (the case-file year overwrites the locator year). -/
def extract_resolution_data (text url : List Char) : ResolutionData :=
  let urlm := searchL matchUrlAt url
  let expm := searchL matchExpedienteAt text
  { numero := match urlm with | some (_, n) => n | none => []
    fecha := res_fecha text
    tipo := chars "DR"
    expediente_numero := match expm with | some (n, _) => n | none => []
    expediente_anio := match expm with
      | some (_, y) => expand_two_digit_year y
      | none => match urlm with | some (y, _) => y | none => []
    dependencia_id := []
    link := url }

/-- `firmado\s+el\s+(\d{1,2})[/\-](\d{1,2})[/\-](\d{2,4})` anchored at
the current position. -/
def matchFirmadoAt (l : List Char) : Option (List Char × List Char × List Char) :=
  if ciPref (chars "firmado") l then
    let l1 := l.drop 7
    let w1 := countWhile isPySpace l1
    if w1 = 0 then none else
    let l2 := l1.drop w1
    if ciPref (chars "el") l2 then
      let l3 := l2.drop 2
      let w2 := countWhile isPySpace l3
      if w2 = 0 then none else
      match d12sep ['/', '-'] (l3.drop w2) with
      | some (d, r1) =>
        match d12sep ['/', '-'] r1 with
        | some (m, r2) =>
          match takeD24 r2 with
          | some y => some (d, m, y)
          | none => none
        | none => none
      | none => none
    else none
  else none

/-- `suscr[i|í]pto?\s+el\s+(\d{1,2})\s+de\s+(\w+)\s+de\s+(\d{4})`
anchored at the current position.  The character class after `suscr`
admits `i`, `|` and `í`; a literal `p` must follow, so the spelling
"suscrito" does not match. -/
def matchSuscriptoAt (l : List Char) : Option (List Char × List Char × List Char) :=
  if ciPref (chars "suscr") l then
    match l.drop 5 with
    | c :: rest =>
      if lowerChar c = 'i' ∨ lowerChar c = '|' ∨ lowerChar c = 'í' then
        if ciPref (chars "pt") rest then
          let r2 := rest.drop 2
          let r3 := match r2 with
            | c2 :: rest2 => if lowerChar c2 = 'o' then rest2 else r2
            | [] => r2
          let w1 := countWhile isPySpace r3
          if w1 = 0 then none else
          let r4 := r3.drop w1
          if ciPref (chars "el") r4 then
            let r5 := r4.drop 2
            let w2 := countWhile isPySpace r5
            if w2 = 0 then none else
            matchSpelledAt (r5.drop w2)
          else none
        else none
      else none
    | [] => none
  else none

/-- `fecha_firma`: the two `firma_patterns` tried in order — numeric
"firmado el D/M/Y" (with pivot expansion), then the spelled
"suscripto el D de mes de YYYY" (month table, default month "01"). -/
def fechaFirmaField (text : List Char) : List Char :=
  match searchL matchFirmadoAt text with
  | some (d, m, y) => mkFecha (expand_two_digit_year y) m d
  | none =>
    match searchL matchSuscriptoAt text with
    | some (d, mname, y) => mkFecha y (assocD (lowerL mname) month_map (chars "01")) d
    | none => []

/-- Terminator scan for the lazy capture `(.+?)(?:\n|\.)` of the title
pattern: extend the capture (never across a newline) until the earliest
newline or period. -/
def goCT (acc : List Char) : List Char → Option (List Char)
  | [] => none
  | c :: rest =>
    if c = '\n' || c = '.' then some acc.reverse
    else goCT (c :: acc) rest

/-- `(.+?)(?:\n|\.)`: at least one captured character (not a newline),
then the earliest newline or period. -/
def captureToTerm : List Char → Option (List Char)
  | [] => none
  | c :: rest => if c = '\n' then none else goCT [c] rest

/-- Greedy `\s+` before the lazy title capture: the maximal whitespace
run is tried first, then shorter runs (down to one). -/
def tituloWsLoop (rest : List Char) : Nat → Option (List Char)
  | 0 => none
  | w + 1 =>
    match captureToTerm (rest.drop (w + 1)) with
    | some cap => some cap
    | none => tituloWsLoop rest w

/-- `convenio\s+(.+?)(?:\n|\.)` (case-insensitive) anchored at the
current position. -/
def tituloAt (l : List Char) : Option (List Char) :=
  if ciPref (chars "convenio") l then
    let rest := l.drop 8
    tituloWsLoop rest (countWhile isPySpace rest)
  else none

/-- `titulo`: first title match, trimmed and truncated to 255. -/
def tituloField (text : List Char) : List Char :=
  match searchL tituloAt text with
  | some cap => (pyStrip cap).take 255
  | none => []

/-- Tail `\s*:?\s*(\d+)\s*a[ñn]os?` shared by the three duration
patterns: the captured group is the digit run. -/
def matchDurTail (l : List Char) : Option (List Char) :=
  let l1 := l.drop (countWhile isPySpace l)
  let l2 := match l1 with
    | ':' :: r => r
    | _ => l1
  let l3 := l2.drop (countWhile isPySpace l2)
  let ds := l3.takeWhile isDig
  if ds.length = 0 then none else
  let l4 := l3.drop ds.length
  let l5 := l4.drop (countWhile isPySpace l4)
  match l5 with
  | a :: n :: o :: _ =>
    if lowerChar a = 'a' ∧ (lowerChar n = 'ñ' ∨ lowerChar n = 'n') ∧ lowerChar o = 'o'
    then some ds else none
  | _ => none

/-- One duration keyword alternative (a character class is given as its
spelling alternatives) followed by the shared tail. -/
def matchDurAt (kws : List (List Char)) (l : List Char) : Option (List Char) :=
  match kws.find? (fun k => ciPref k l) with
  | some k => matchDurTail (l.drop k.length)
  | none => none

/-- `duracion`: the three `duracion_patterns` tried in order. -/
def duracionField (text : List Char) : List Char :=
  match searchL (matchDurAt [chars "duracion", chars "duración"]) text with
  | some d => d
  | none =>
    match searchL (matchDurAt [chars "vigencia"]) text with
    | some d => d
    | none =>
      match searchL (matchDurAt [chars "plazo"]) text with
      | some d => d
      | none => []

/-- `\.\s*[A-Z]` sentence-boundary test after a period. -/
def dotTermCheck (l : List Char) : Bool :=
  match l.drop (countWhile isPySpace l) with
  | c :: _ => 'A' ≤ c && c ≤ 'Z'
  | [] => false

/-- Lazy scan of `(.+?)(?:\n\n|\.\s*[A-Z])` with dot-matches-newline:
extend the capture until the earliest blank line or sentence boundary. -/
def objGo (acc : List Char) : List Char → Option (List Char)
  | [] => none
  | c :: rest =>
    if c = '\n' ∧ rest.head? = some '\n' then some acc.reverse
    else if c = '.' ∧ dotTermCheck rest = true then some acc.reverse
    else objGo (c :: acc) rest

/-- `(.+?)(?:\n\n|\.\s*[A-Z])`: at least one captured character (any
character, DOTALL), then the earliest terminator. -/
def objCapture : List Char → Option (List Char)
  | [] => none
  | c :: rest => objGo [c] rest

/-- Greedy second `\s*` of the objeto tail, maximal run first with
backtracking down to the empty run. -/
def objWs2Loop (l2 : List Char) : Nat → Option (List Char)
  | 0 => objCapture l2
  | w + 1 =>
    match objCapture (l2.drop (w + 1)) with
    | some cap => some cap
    | none => objWs2Loop l2 w

def objWs2 (l2 : List Char) : Option (List Char) :=
  objWs2Loop l2 (countWhile isPySpace l2)

/-- Greedy optional colon between the two whitespace runs. -/
def objColon (l1 : List Char) : Option (List Char) :=
  match l1 with
  | ':' :: rest =>
    match objWs2 rest with
    | some cap => some cap
    | none => objWs2 l1
  | _ => objWs2 l1

/-- Greedy first `\s*` of the objeto tail, with backtracking. -/
def objWs1Loop (l : List Char) : Nat → Option (List Char)
  | 0 => objColon l
  | w + 1 =>
    match objColon (l.drop (w + 1)) with
    | some cap => some cap
    | none => objWs1Loop l w

/-- Tail `\s*:?\s*(.+?)(?:\n\n|\.\s*[A-Z])` of the objeto patterns. -/
def objTail (l : List Char) : Option (List Char) :=
  objWs1Loop l (countWhile isPySpace l)

/-- One objeto keyword alternative followed by the shared tail. -/
def matchObjAt (kws : List (List Char)) (l : List Char) : Option (List Char) :=
  match kws.find? (fun k => ciPref k l) with
  | some k => objTail (l.drop k.length)
  | none => none

/-- `objeto`: the three `objeto_patterns` tried in order; the first
match is trimmed and truncated to 500. -/
def objetoField (text : List Char) : List Char :=
  match searchL (matchObjAt [chars "objeto"]) text with
  | some cap => (pyStrip cap).take 500
  | none =>
    match searchL (matchObjAt [chars "proposito", chars "propósito"]) text with
    | some cap => (pyStrip cap).take 500
    | none =>
      match searchL (matchObjAt [chars "finalidad"]) text with
      | some cap => (pyStrip cap).take 500
      | none => []

structure ConvenioData where
  tipo_convenio : List Char
  titulo : List Char
  duracion : List Char
  fecha_firma : List Char
  tipo_renovacion : List Char
  internacional : List Char
  objeto : List Char
  observaciones : List Char
deriving DecidableEq

/-- `extract_convenio_data`. -/
def extract_convenio_data (text : List Char) : ConvenioData :=
  { tipo_convenio := findTable tipos_convenio text (chars "Marco")
    titulo := tituloField text
    duracion := duracionField text
    fecha_firma := fechaFirmaField text
    tipo_renovacion := findTable tipos_renovacion text []
    internacional :=
      if wholeWordOccurs (chars "internacional") text ||
         wholeWordOccurs (chars "extranjero") text ||
         wholeWordOccurs (chars "exterior") text
      then chars "true" else chars "false"
    objeto := objetoField text
    observaciones := [] }

/-- `<Prefix>\s+[^,\n]+` anchored at the current position; the prefix is
given by its lowercase spelling alternatives (for the `[oó]` classes).
Returns the captured slice (original characters) and the rest of the
text after the match.  When the character class cannot start after the
maximal whitespace run, the regex backtracks `\s+` by one and the class
consumes the last whitespace character. -/
def instMatchAt (alts : List (List Char)) (l : List Char) : Option (List Char × List Char) :=
  match alts.find? (fun k => ciPref k l) with
  | none => none
  | some k =>
    let rest := l.drop k.length
    let w := countWhile isPySpace rest
    if w = 0 then none else
    let rest2 := rest.drop w
    let body := rest2.takeWhile (fun c => !(c = ',' || c = '\n'))
    if body.length = 0 then
      if 2 ≤ w then some (l.take (k.length + w), rest2) else none
    else some (l.take (k.length + w + body.length), rest2.drop body.length)

/-- `Provincia\s+de\s+\w+` anchored at the current position. -/
def matchProvAt (l : List Char) : Option (List Char × List Char) :=
  if ciPref (chars "provincia") l then
    let r1 := l.drop 9
    let w1 := countWhile isPySpace r1
    if w1 = 0 then none else
    let r2 := r1.drop w1
    if ciPref (chars "de") r2 then
      let r3 := r2.drop 2
      let w2 := countWhile isPySpace r3
      if w2 = 0 then none else
      let r4 := r3.drop w2
      let wd := r4.takeWhile isWordChar
      if wd.length = 0 then none else
      some (l.take (9 + w1 + 2 + w2 + wd.length), r4.drop wd.length)
    else none
  else none

/-- `re.finditer`: scan left to right, collecting non-overlapping
matches and resuming after each; `fuel` bounds the recursion (every step
consumes at least one character). -/
def scanAll (f : List Char → Option (List Char × List Char)) : Nat → List Char → List (List Char)
  | 0, _ => []
  | _, [] => []
  | fuel + 1, c :: rest =>
    match f (c :: rest) with
    | some (cap, after) => cap :: scanAll f fuel after
    | none => scanAll f fuel rest

/-- All capture groups of the nine `institution_patterns`, in pattern
declaration order, each trimmed (`match.group(1).strip()`). -/
def rawInstNames (text : List Char) : List (List Char) :=
  let n := text.length + 1
  (scanAll (instMatchAt [chars "universidad"]) n text ++
   scanAll (instMatchAt [chars "instituto"]) n text ++
   scanAll (instMatchAt [chars "ministerio"]) n text ++
   scanAll (instMatchAt [chars "gobierno"]) n text ++
   scanAll matchProvAt n text ++
   scanAll (instMatchAt [chars "municipalidad"]) n text ++
   scanAll (instMatchAt [chars "fundacion", chars "fundación"]) n text ++
   scanAll (instMatchAt [chars "empresa"]) n text ++
   scanAll (instMatchAt [chars "asociacion", chars "asociación"]) n text).map pyStrip

/-- The shared accept-and-deduplicate loop of both entity extractors:
accept a candidate when it passes `ok` and its key has not been seen;
keys of accepted candidates are remembered. -/
def dedupBy (key : α → List Char) (ok : α → Bool) : List (List Char) → List α → List α
  | _, [] => []
  | seen, x :: xs =>
    if ok x = true ∧ key x ∉ seen then x :: dedupBy key ok (key x :: seen) xs
    else dedupBy key ok seen xs

structure Institucion where
  nombre : List Char
  tipo : List Char
  pais : List Char
  provincia : List Char
  localidad : List Char
deriving DecidableEq

/-- Institution-type classification: `tipo_key in inst_name.lower()`
over the ordered table, default Universitaria. -/
def classifyInst (nm : List Char) : List Char :=
  subLookup tipos_institucion (lowerL nm) (chars "Universitaria")

/-- One institution record with the fixed geographic constants. -/
def mkInst (nm : List Char) : Institucion :=
  { nombre := nm, tipo := classifyInst nm, pais := chars "Argentina",
    provincia := chars "Salta", localidad := chars "Salta" }

/-- `extract_institutions`: scan the nine patterns, keep trimmed names
longer than five characters, deduplicate case-insensitively on the
name, build records, truncate to five. -/
def extract_institutions (text : List Char) : List Institucion :=
  ((dedupBy lowerL (fun nm => decide (5 < nm.length)) [] (rawInstNames text)).take 5).map mkInst

structure RawName where
  nombre : List Char
  apellido : List Char
  startP : Nat
  endP : Nat
deriving DecidableEq

/-- `[A-ZÁÉÍÓÚ]`. -/
def isCapU (c : Char) : Bool :=
  ('A' ≤ c && c ≤ 'Z') || c ∈ ['Á', 'É', 'Í', 'Ó', 'Ú']

/-- `[a-záéíóú]`. -/
def isCapL (c : Char) : Bool :=
  ('a' ≤ c && c ≤ 'z') || c ∈ ['á', 'é', 'í', 'ó', 'ú']

/-- `[A-ZÁÉÍÓÚ][a-záéíóú]+`: one capitalized word. -/
def nameWord : List Char → Option (List Char × List Char)
  | [] => none
  | c :: rest =>
    if isCapU c then
      let run := rest.takeWhile isCapL
      if run.length = 0 then none else some (c :: run, rest.drop run.length)
    else none

/-- Greedy `(?:\s+[A-ZÁÉÍÓÚ][a-záéíóú]+)*`: the consumed text and the
rest. -/
def starWords : Nat → List Char → List Char × List Char
  | 0, l => ([], l)
  | fuel + 1, l =>
    let w := countWhile isPySpace l
    if w = 0 then ([], l) else
    match nameWord (l.drop w) with
    | some (wd, rest) =>
      let (tail, rest2) := starWords fuel rest
      (l.take w ++ wd ++ tail, rest2)
    | none => ([], l)

/-- The generic two-or-more-capitalized-words pattern (first of the
`name_patterns`), anchored: nombre, apellido, consumed length. -/
def matchNameA (l : List Char) : Option (List Char × List Char × Nat) :=
  match nameWord l with
  | none => none
  | some (g1, r1) =>
    let w := countWhile isPySpace r1
    if w = 0 then none else
    match nameWord (r1.drop w) with
    | none => none
    | some (g2h, r2) =>
      let (tail, r3) := starWords r2.length r2
      some (g1, g2h ++ tail, l.length - r3.length)

/-- The `Dr.`/`Ing.`/`Lic.`-prefixed name patterns, anchored; the prefix
literal is case-sensitive. -/
def matchTitledAt (pfx : List Char) (l : List Char) : Option (List Char × List Char × Nat) :=
  if isPrefL pfx l then
    let r0 := l.drop pfx.length
    let w1 := countWhile isPySpace r0
    if w1 = 0 then none else
    match nameWord (r0.drop w1) with
    | none => none
    | some (g1, r1) =>
      let w2 := countWhile isPySpace r1
      if w2 = 0 then none else
      match nameWord (r1.drop w2) with
      | none => none
      | some (g2, r2) => some (g1, g2, l.length - r2.length)
  else none

/-- Position-tracking `re.finditer` for the name patterns. -/
def scanAllPos (f : List Char → Option (List Char × List Char × Nat)) :
    Nat → Nat → List Char → List RawName
  | 0, _, _ => []
  | _, _, [] => []
  | fuel + 1, pos, c :: rest =>
    match f (c :: rest) with
    | some (g1, g2, len) =>
      { nombre := g1, apellido := g2, startP := pos, endP := pos + len } ::
        scanAllPos f fuel (pos + len) ((c :: rest).drop len)
    | none => scanAllPos f fuel (pos + 1) rest

/-- All matches of the four `name_patterns` in declaration order. -/
def rawSigners (text : List Char) : List RawName :=
  let n := text.length + 1
  scanAllPos matchNameA n 0 text ++
  scanAllPos (matchTitledAt (chars "Dr.")) n 0 text ++
  scanAllPos (matchTitledAt (chars "Ing.")) n 0 text ++
  scanAllPos (matchTitledAt (chars "Lic.")) n 0 text

structure Firmante where
  dni : List Char
  nombre : List Char
  apellido : List Char
  cargo : List Char
deriving DecidableEq

/-- Signer-title classification: `cargo_key in context.lower()` over the
ordered table, default Rector/a. -/
def classifyCargo (ctx : List Char) : List Char :=
  subLookup cargos (lowerL ctx) (chars "Rector/a")

/-- `text[max(0, start-100):end+100]` (natural subtraction models the
`max(0, ...)` clamp). -/
def ctxWindow (text : List Char) (startP endP : Nat) : List Char :=
  (text.drop (startP - 100)).take (endP + 100 - (startP - 100))

/-- Deduplication key `f"{nombre} {apellido}".lower()`. -/
def signerKey (m : RawName) : List Char := lowerL (m.nombre ++ ' ' :: m.apellido)

/-- One signer record, the title classified from the context window. -/
def mkSigner (text : List Char) (m : RawName) : Firmante :=
  { dni := [], nombre := m.nombre, apellido := m.apellido,
    cargo := classifyCargo (ctxWindow text m.startP m.endP) }

/-- `extract_signers`: scan the four name patterns, keep names whose two
parts are longer than two characters, deduplicate case-insensitively on
the full name, classify titles from context, truncate to five. -/
def extract_signers (text : List Char) : List Firmante :=
  ((dedupBy signerKey
      (fun m => decide (2 < m.nombre.length) && decide (2 < m.apellido.length))
      [] (rawSigners text)).take 5).map (mkSigner text)

structure ExtractedRecord where
  resolucion : ResolutionData
  convenioData : ConvenioData
  instituciones : List Institucion
  firmantes : List Firmante
deriving DecidableEq

/-- `process_single_pdf` from the point where the document text is
available: fewer than 50 characters of stripped text mean "insufficient
text" and no record; otherwise the four extractions are assembled. -/
def process_single_text (text url : List Char) : Option ExtractedRecord :=
  if (pyStrip text).length < 50 then none
  else some
    { resolucion := extract_resolution_data text url
      convenioData := extract_convenio_data text
      instituciones := extract_institutions text
      firmantes := extract_signers text }

/-- No newline and no period anywhere in a text fragment. -/
def cleanSuffix (l : List Char) : Bool :=
  l.all (fun c => !(c = '\n' || c = '.'))

/-- Every suffix of the text that starts with a case-insensitive
occurrence of "convenio" runs to the end of the input without any
newline or period (the hypothesis of C10). -/
def noTermAfterConv : List Char → Bool
  | [] => true
  | c :: rest =>
    (!(ciPref (chars "convenio") (c :: rest)) || cleanSuffix (c :: rest)) &&
    noTermAfterConv rest

/-- The end-to-end scenario text of C1. -/
def c1text : List Char :=
  chars "Acuerdo de Cooperacion firmado el 15 de marzo de 2020 entre la Universidad Nacional de Salta y el Ministerio de Educacion"

/-- The end-to-end scenario locator of C1. -/
def c1url : List Char := chars "R-DR-2020-0123.pdf"

/-- The C4 counterexample text, using the spelling "suscrito". -/
def c4text : List Char := chars "Convenio suscrito el 5 de marzo de 2020 entre las partes"

/-- The C4 witness text, using the spelling "suscripto". -/
def c4wtext : List Char := chars "suscripto el 5 de marzo de 2020"

/-- All characters of a capture are decimal digits. -/
abbrev allDig (l : List Char) : Prop := ∀ c ∈ l, isDig c = true

/-- A one-or-two-digit capture (`\d{1,2}`). -/
def dig12 (l : List Char) : Prop := (l.length = 1 ∨ l.length = 2) ∧ allDig l

/-- A four-digit capture (`\d{4}`). -/
def dig4 (l : List Char) : Prop := l.length = 4 ∧ allDig l

/-- A two-to-four-digit capture (`\d{2,4}`). -/
def dig234 (l : List Char) : Prop :=
  (l.length = 2 ∨ l.length = 3 ∨ l.length = 4) ∧ allDig l

/-- Shape of an emitted date string: a year of one of the lengths in
`yl`, a two-digit month and a two-digit day, all digits, dash
separated. -/
def dateShape (yl : List Nat) (f : List Char) : Prop :=
  ∃ y m d, f = y ++ '-' :: (m ++ '-' :: d) ∧ y.length ∈ yl ∧ allDig y ∧
    m.length = 2 ∧ allDig m ∧ d.length = 2 ∧ allDig d

/-- Gregorian leap-year rule. -/
def leapYear (y : Nat) : Bool := y % 4 = 0 && (y % 100 ≠ 0 || y % 400 = 0)

/-- Days in a Gregorian month. -/
def daysInMonth (y m : Nat) : Nat :=
  if m = 2 then (if leapYear y then 29 else 28)
  else if m = 4 ∨ m = 6 ∨ m = 9 ∨ m = 11 then 30 else 31

/-- Follows the spec's words: a well-formed ISO calendar date string
`YYYY-MM-DD` denoting a valid calendar date (month and day inside their
calendar ranges). -/
def specValidISODate (f : List Char) : Bool :=
  match f with
  | [y1, y2, y3, y4, h1, m1, m2, h2, d1, d2] =>
    h1 = '-' && h2 = '-' &&
    [y1, y2, y3, y4, m1, m2, d1, d2].all isDig &&
    (let y := digitsToNat [y1, y2, y3, y4]
     let m := digitsToNat [m1, m2]
     let d := digitsToNat [d1, d2]
     1 ≤ m && m ≤ 12 && 1 ≤ d && d ≤ daysInMonth y m)
  | _ => false

/-! ### Generic lemmas about the embedded combinators -/

theorem searchL_imp {α : Type} {P : α → Prop} (f : List Char → Option α)
    (hf : ∀ l r, f l = some r → P r) :
    ∀ t r, searchL f t = some r → P r := by
  intro t
  induction t with
  | nil => intro r h; exact hf [] r h
  | cons c rest ih =>
    intro r h
    cases hm : f (c :: rest) with
    | some x =>
      simp only [searchL, hm] at h
      exact hf (c :: rest) r (by rw [hm, h])
    | none =>
      simp only [searchL, hm] at h
      exact ih r h

theorem pyStrip_length_le (l : List Char) : (pyStrip l).length ≤ l.length := by
  unfold pyStrip
  rw [List.length_reverse]
  calc ((l.dropWhile isPySpace).reverse.dropWhile isPySpace).length
      ≤ (l.dropWhile isPySpace).reverse.length :=
        (List.dropWhile_sublist _).length_le
    _ = (l.dropWhile isPySpace).length := List.length_reverse _
    _ ≤ l.length := (List.dropWhile_sublist _).length_le

theorem isPrefL_append_hd (u v t : List Char) :
    isPrefL (u ++ v) t = true → containsSub v t = true := by
  induction u generalizing t with
  | nil =>
    intro h
    rw [List.nil_append] at h
    cases t with
    | nil => simpa [containsSub] using h
    | cons c rest =>
      simp only [containsSub, Bool.or_eq_true]
      exact Or.inl h
  | cons a as ih =>
    intro h
    cases t with
    | nil => simp [isPrefL] at h
    | cons b bs =>
      simp only [List.cons_append, isPrefL, Bool.and_eq_true] at h
      have h2 := ih bs h.2
      simp only [containsSub, Bool.or_eq_true]
      exact Or.inr h2

theorem containsSub_of_append (u v t : List Char) :
    containsSub (u ++ v) t = true → containsSub v t = true := by
  induction t with
  | nil =>
    intro h
    simp only [containsSub] at h
    exact isPrefL_append_hd u v [] h
  | cons c rest ih =>
    intro h
    simp only [containsSub, Bool.or_eq_true] at h ⊢
    rcases h with h | h
    · have h2 := isPrefL_append_hd u v (c :: rest) h
      simpa [containsSub] using h2
    · exact Or.inr (ih h)

theorem findTable_pre (k v : List Char) (l2 : List (List Char × List Char))
    (text d : List Char) :
    ∀ l1 : List (List Char × List Char),
      (∀ p ∈ l1, wholeWordOccurs p.1 text = false) →
      wholeWordOccurs k text = true →
      findTable (l1 ++ (k, v) :: l2) text d = v := by
  intro l1
  induction l1 with
  | nil => intro _ h2; simp [findTable, h2]
  | cons p rest ih =>
    intro h1 h2
    obtain ⟨pk, pv⟩ := p
    have hpk : wholeWordOccurs pk text = false := h1 (pk, pv) (by simp)
    simp only [List.cons_append, findTable, hpk]
    simp only [Bool.false_eq_true, if_false]
    exact ih (fun q hq => h1 q (List.mem_cons_of_mem _ hq)) h2

theorem dedupBy_sublist {α : Type} (key : α → List Char) (ok : α → Bool) :
    ∀ (xs : List α) (seen : List (List Char)), (dedupBy key ok seen xs).Sublist xs := by
  intro xs
  induction xs with
  | nil => intro seen; simp [dedupBy]
  | cons x rest ih =>
    intro seen
    simp only [dedupBy]
    by_cases hc : ok x = true ∧ key x ∉ seen
    · rw [if_pos hc]; exact (ih _).cons₂ x
    · rw [if_neg hc]; exact (ih _).cons x

theorem dedupBy_key_notin {α : Type} (key : α → List Char) (ok : α → Bool) :
    ∀ (xs : List α) (seen : List (List Char)) (a : α),
      a ∈ dedupBy key ok seen xs → key a ∉ seen := by
  intro xs
  induction xs with
  | nil => intro seen a h; simp [dedupBy] at h
  | cons x rest ih =>
    intro seen a h
    simp only [dedupBy] at h
    by_cases hc : ok x = true ∧ key x ∉ seen
    · rw [if_pos hc] at h
      rcases List.mem_cons.mp h with rfl | h'
      · exact hc.2
      · intro hmem
        exact ih (key x :: seen) a h' (List.mem_cons_of_mem _ hmem)
    · rw [if_neg hc] at h
      exact ih seen a h

theorem dedupBy_pairwise {α : Type} (key : α → List Char) (ok : α → Bool) :
    ∀ (xs : List α) (seen : List (List Char)),
      (dedupBy key ok seen xs).Pairwise (fun a b => key a ≠ key b) := by
  intro xs
  induction xs with
  | nil => intro seen; simp [dedupBy]
  | cons x rest ih =>
    intro seen
    simp only [dedupBy]
    by_cases hc : ok x = true ∧ key x ∉ seen
    · rw [if_pos hc]
      refine List.pairwise_cons.mpr ⟨?_, ih _⟩
      intro b hb he
      have hnot := dedupBy_key_notin key ok rest (key x :: seen) b hb
      exact hnot (by rw [← he]; exact List.mem_cons_self _ _)
    · rw [if_neg hc]; exact ih _

theorem assocD_pred (P : List Char → Prop) (k : List Char) :
    ∀ (tbl : List (List Char × List Char)) (d : List Char),
      (∀ p ∈ tbl, P p.2) → P d → P (assocD k tbl d) := by
  intro tbl
  induction tbl with
  | nil => intro d _ hd; exact hd
  | cons p rest ih =>
    intro d h hd
    obtain ⟨a, b⟩ := p
    unfold assocD
    by_cases hk : k = a
    · rw [if_pos hk]; exact h (a, b) (by simp)
    · rw [if_neg hk]
      exact ih d (fun q hq => h q (List.mem_cons_of_mem _ hq)) hd

theorem assocD_eq_of_mem (k v d : List Char) :
    ∀ tbl : List (List Char × List Char),
      (tbl.map Prod.fst).Nodup → (k, v) ∈ tbl → assocD k tbl d = v := by
  intro tbl
  induction tbl with
  | nil => intro _ h; simp at h
  | cons p rest ih =>
    intro hnd hm
    obtain ⟨a, b⟩ := p
    simp only [List.map_cons, List.nodup_cons] at hnd
    rcases List.mem_cons.mp hm with he | hm'
    · rw [Prod.mk.injEq] at he
      obtain ⟨rfl, rfl⟩ := he
      unfold assocD
      rw [if_pos rfl]
    · unfold assocD
      by_cases hk : k = a
      · subst hk
        exact absurd (List.mem_map_of_mem Prod.fst hm') hnd.1
      · rw [if_neg hk]
        exact ih hnd.2 hm'

/-! ### Claim theorems -/

/-- C5: wherever a pattern captures a year token of exactly 2 digits
(the expediente year and the numeric "firmado el" signing-date year),
"49" expands to "2049", "51" expands to "1951" and the boundary token
"50" expands to "2050" (strictly greater than 50 gives the 19xx prefix,
otherwise the 20xx prefix); demonstrated on the shared expansion
function and at both of its use sites. -/
theorem c5_thm :
    expand_two_digit_year (chars "49") = chars "2049" ∧
    expand_two_digit_year (chars "51") = chars "1951" ∧
    expand_two_digit_year (chars "50") = chars "2050" ∧
    ResolutionData.expediente_anio
      (extract_resolution_data (chars "expediente n 7/49 x") []) = chars "2049" ∧
    ConvenioData.fecha_firma (extract_convenio_data (chars "firmado el 1/2/51")) =
      chars "1951-02-01" ∧
    ConvenioData.fecha_firma (extract_convenio_data (chars "firmado el 1/2/50")) =
      chars "2050-02-01" := by
  refine ⟨by decide, by decide, by decide, by decide, by decide, by decide⟩

/-- C6: for every input text of fewer than 50 characters the engine
performs no extraction and produces no record: the stripped text is no
longer than the text itself, so the insufficient-text guard fires. -/
theorem c6_thm (text url : List Char) (h : text.length < 50) :
    process_single_text text url = none := by
  have hlt : (pyStrip text).length < 50 :=
    Nat.lt_of_le_of_lt (pyStrip_length_le text) h
  simp [process_single_text, hlt]

/-- C6 witness: a concrete 11-character text is rejected. -/
theorem c6_w :
    (chars "texto corto").length < 50 ∧
    process_single_text (chars "texto corto") (chars "u.pdf") = none :=
  ⟨by decide, c6_thm (chars "texto corto") (chars "u.pdf") (by decide)⟩

/-- C8: for every input text the titulo field is at most 255 characters
long and the objeto field at most 500, whatever the captured spans. -/
theorem c8_thm (text : List Char) :
    (ConvenioData.titulo (extract_convenio_data text)).length ≤ 255 ∧
    (ConvenioData.objeto (extract_convenio_data text)).length ≤ 500 := by
  constructor
  · show (tituloField text).length ≤ 255
    unfold tituloField
    cases searchL tituloAt text with
    | none => simp
    | some cap => simp [List.length_take]
  · show (objetoField text).length ≤ 500
    unfold objetoField
    cases searchL (matchObjAt [chars "objeto"]) text with
    | some cap => simp [List.length_take]
    | none =>
      cases searchL (matchObjAt [chars "proposito", chars "propósito"]) text with
      | some cap => simp [List.length_take]
      | none =>
        cases searchL (matchObjAt [chars "finalidad"]) text with
        | some cap => simp [List.length_take]
        | none => simp

/-- C9: any signer context window containing "vicerrector" (hence also
any containing "vicerrectora") is classified as Rector/a, because the
table entry "rector" is declared first and matches as a plain substring
inside "vicerrector". -/
theorem c9_thm (ctx : List Char)
    (h : containsSub (chars "vicerrector") (lowerL ctx) = true) :
    classifyCargo ctx = chars "Rector/a" := by
  have hsplit : chars "vicerrector" = chars "vicer" ++ chars "rector" := by decide
  rw [hsplit] at h
  have hr := containsSub_of_append (chars "vicer") (chars "rector") (lowerL ctx) h
  simp only [classifyCargo, cargos, subLookup]
  rw [if_pos hr]

/-- C9 witness: a concrete window containing "Vicerrectora". -/
theorem c9_w :
    containsSub (chars "vicerrector") (lowerL (chars "la Vicerrectora Ana Gomez")) = true ∧
    classifyCargo (chars "la Vicerrectora Ana Gomez") = chars "Rector/a" :=
  ⟨by decide, c9_thm (chars "la Vicerrectora Ana Gomez") (by decide)⟩

/-- C2 counterexample: in the text "marco de cooperacion" both the
generic term "marco" and the compound term "marco de cooperacion" occur
as case-insensitive whole words, yet the agreement-type lookup returns
"Marco": the table declares the generic term before the compound one. -/
theorem c2_cex :
    wholeWordOccurs (chars "marco") (chars "marco de cooperacion") = true ∧
    wholeWordOccurs (chars "marco de cooperacion") (chars "marco de cooperacion") = true ∧
    ConvenioData.tipo_convenio (extract_convenio_data (chars "marco de cooperacion")) =
      chars "Marco" ∧
    chars "Marco" ≠ chars "Marco de Cooperacion" :=
  ⟨by decide, by decide, by decide, by decide⟩

/-- C2 amended: for every input text in which both "marco" and "marco de
cooperacion" occur as case-insensitive whole words and no agreement-type
term declared before "marco" occurs, the lookup returns "Marco" (the
value of the generic term), because the ordered table declares "marco"
before "marco de cooperacion" and the earlier-declared term wins. -/
theorem c2_thm (text : List Char)
    (h1 : ∀ p ∈ tipos_convenio.take 16, wholeWordOccurs p.1 text = false)
    (h2 : wholeWordOccurs (chars "marco") text = true)
    (h3 : wholeWordOccurs (chars "marco de cooperacion") text = true) :
    ConvenioData.tipo_convenio (extract_convenio_data text) = chars "Marco" := by
  show findTable tipos_convenio text (chars "Marco") = chars "Marco"
  have hdec : tipos_convenio =
      tipos_convenio.take 16 ++ (chars "marco", chars "Marco") :: tipos_convenio.drop 17 := by
    rfl
  rw [hdec]
  exact findTable_pre (chars "marco") (chars "Marco") _ text (chars "Marco") _ h1 h2

/-- C2 witness: the amended theorem applied to the concrete text
"marco de cooperacion". -/
theorem c2_w :
    (∀ p ∈ tipos_convenio.take 16,
       wholeWordOccurs p.1 (chars "marco de cooperacion") = false) ∧
    wholeWordOccurs (chars "marco") (chars "marco de cooperacion") = true ∧
    ConvenioData.tipo_convenio (extract_convenio_data (chars "marco de cooperacion")) =
      chars "Marco" :=
  ⟨by decide, by decide,
    c2_thm (chars "marco de cooperacion") (by decide) (by decide) (by decide)⟩

/-- C7: institution and signer sequences are capped at five entries,
contain no two entries with case-insensitively equal deduplication keys
(the institution name; the "nombre apellido" string), and preserve
first-discovery order: each output sequence projects to a sublist of its
raw candidate stream. -/
theorem c7_thm (text : List Char) :
    (extract_institutions text).length ≤ 5 ∧
    (extract_institutions text).Pairwise
      (fun a b => lowerL a.nombre ≠ lowerL b.nombre) ∧
    ((extract_institutions text).map Institucion.nombre).Sublist (rawInstNames text) ∧
    (extract_signers text).length ≤ 5 ∧
    (extract_signers text).Pairwise
      (fun a b => lowerL (a.nombre ++ ' ' :: a.apellido) ≠
                  lowerL (b.nombre ++ ' ' :: b.apellido)) ∧
    ((extract_signers text).map (fun g => (g.nombre, g.apellido))).Sublist
      ((rawSigners text).map (fun m => (m.nombre, m.apellido))) := by
  refine ⟨?_, ?_, ?_, ?_, ?_, ?_⟩
  · simp only [extract_institutions, List.length_map, List.length_take]
    omega
  · unfold extract_institutions
    rw [List.pairwise_map]
    exact List.Pairwise.sublist (List.take_sublist 5 _)
      (dedupBy_pairwise lowerL _ (rawInstNames text) [])
  · unfold extract_institutions
    rw [List.map_map]
    have he : Institucion.nombre ∘ mkInst = id := rfl
    rw [he, List.map_id]
    exact (List.take_sublist 5 _).trans (dedupBy_sublist lowerL _ (rawInstNames text) [])
  · simp only [extract_signers, List.length_map, List.length_take]
    omega
  · unfold extract_signers
    rw [List.pairwise_map]
    exact List.Pairwise.sublist (List.take_sublist 5 _)
      (dedupBy_pairwise signerKey _ (rawSigners text) [])
  · unfold extract_signers
    rw [List.map_map]
    have he : ((fun g : Firmante => (g.nombre, g.apellido)) ∘ mkSigner text) =
        (fun m : RawName => (m.nombre, m.apellido)) := rfl
    rw [he]
    exact List.Sublist.map _
      ((List.take_sublist 5 _).trans (dedupBy_sublist signerKey _ (rawSigners text) []))

theorem goCT_mem : ∀ (l acc cap : List Char), goCT acc l = some cap →
    ∃ c ∈ l, c = '\n' ∨ c = '.' := by
  intro l
  induction l with
  | nil => intro acc cap h; simp [goCT] at h
  | cons c rest ih =>
    intro acc cap h
    simp only [goCT] at h
    by_cases hc : (c = '\n' || c = '.') = true
    · exact ⟨c, by simp, by simpa using hc⟩
    · rw [if_neg hc] at h
      obtain ⟨d, hd, hor⟩ := ih (c :: acc) cap h
      exact ⟨d, List.mem_cons_of_mem _ hd, hor⟩

theorem captureToTerm_mem (l cap : List Char) (h : captureToTerm l = some cap) :
    ∃ c ∈ l, c = '\n' ∨ c = '.' := by
  cases l with
  | nil => simp [captureToTerm] at h
  | cons c rest =>
    simp only [captureToTerm] at h
    by_cases hc : c = '\n'
    · rw [if_pos hc] at h; simp at h
    · rw [if_neg hc] at h
      obtain ⟨d, hd, hor⟩ := goCT_mem rest [c] cap h
      exact ⟨d, List.mem_cons_of_mem _ hd, hor⟩

theorem tituloWsLoop_mem (rest : List Char) :
    ∀ (n : Nat) (cap : List Char), tituloWsLoop rest n = some cap →
      ∃ c ∈ rest, c = '\n' ∨ c = '.' := by
  intro n
  induction n with
  | zero => intro cap h; simp [tituloWsLoop] at h
  | succ w ih =>
    intro cap h
    simp only [tituloWsLoop] at h
    cases hm : captureToTerm (rest.drop (w + 1)) with
    | some cap2 =>
      obtain ⟨d, hd, hor⟩ := captureToTerm_mem _ _ hm
      exact ⟨d, List.drop_subset _ _ hd, hor⟩
    | none =>
      rw [hm] at h
      exact ih cap h

theorem tituloAt_imp (l cap : List Char) (h : tituloAt l = some cap) :
    ciPref (chars "convenio") l = true ∧ ∃ c ∈ l, c = '\n' ∨ c = '.' := by
  unfold tituloAt at h
  by_cases hp : ciPref (chars "convenio") l = true
  · refine ⟨hp, ?_⟩
    rw [if_pos hp] at h
    obtain ⟨d, hd, hor⟩ := tituloWsLoop_mem (l.drop 8) _ cap h
    exact ⟨d, List.drop_subset _ _ hd, hor⟩
  · rw [if_neg hp] at h
    simp at h

theorem titulo_scan_none : ∀ t, noTermAfterConv t = true → searchL tituloAt t = none := by
  intro t
  induction t with
  | nil =>
    intro _
    show tituloAt [] = none
    decide
  | cons c rest ih =>
    intro h
    simp only [noTermAfterConv, Bool.and_eq_true, Bool.or_eq_true] at h
    obtain ⟨h1, h2⟩ := h
    cases hm : tituloAt (c :: rest) with
    | none =>
      simp only [searchL, hm]
      exact ih h2
    | some cap =>
      exfalso
      obtain ⟨hp, d, hd, hor⟩ := tituloAt_imp _ _ hm
      rcases h1 with h1 | h1
      · rw [hp] at h1; simp at h1
      · unfold cleanSuffix at h1
        have hall := List.all_eq_true.mp h1 d hd
        rcases hor with rfl | rfl <;> simp at hall

/-- C10: when every occurrence of "convenio" in the text is followed by
text that reaches the end of the input without any newline or period,
the titulo field is empty — the title pattern requires a terminating
newline or period after the captured span. -/
theorem c10_thm (text : List Char) (h : noTermAfterConv text = true) :
    ConvenioData.titulo (extract_convenio_data text) = [] := by
  show tituloField text = []
  unfold tituloField
  rw [titulo_scan_none text h]

/-- C10 witness: a document whose only "convenio" occurrence runs to the
end of the input without newline or period yields an empty title. -/
theorem c10_w :
    noTermAfterConv (chars "se celebra el convenio marco entre las partes") = true ∧
    ConvenioData.titulo
      (extract_convenio_data (chars "se celebra el convenio marco entre las partes")) = [] :=
  ⟨by decide, c10_thm _ (by decide)⟩

/-- C1 counterexample: on the scenario input the engine does not produce
the claimed fields: the agreement type is not "Acuerdo Cooperacion" (the
table key lacks the "de" of the text's "Acuerdo de Cooperacion"),
fechaFirma is not "2020-03-15" (the "firmado el" signing pattern demands
a numeric D/M/Y date), and no institution entry is named exactly
"Universidad Nacional de Salta" (the Universidad pattern captures to the
end of the line). -/
theorem c1_cex :
    ConvenioData.tipo_convenio (extract_convenio_data c1text) ≠ chars "Acuerdo Cooperacion" ∧
    ConvenioData.fecha_firma (extract_convenio_data c1text) ≠ chars "2020-03-15" ∧
    (∀ inst ∈ extract_institutions c1text,
       inst.nombre ≠ chars "Universidad Nacional de Salta") :=
  ⟨by decide, by decide, by decide⟩

/-- C1 amended: on the scenario input the engine produces
tipoConvenio "Acuerdo" (first whole-word hit of the ordered table),
fechaFirma empty, the spelled date as the resolution fecha "2020-03-15",
expedienteAnio "2020" and numero "0123" from the locator, and the
institution entries "Universidad Nacional de Salta y el Ministerio de
Educacion" (classified "Nacional": that key precedes "universidad" in
the type table) and "Ministerio de Educacion" (classified
"Gubernamental"). -/
theorem c1_thm :
    ConvenioData.tipo_convenio (extract_convenio_data c1text) = chars "Acuerdo" ∧
    ConvenioData.fecha_firma (extract_convenio_data c1text) = [] ∧
    ResolutionData.fecha (extract_resolution_data c1text c1url) = chars "2020-03-15" ∧
    ResolutionData.expediente_anio (extract_resolution_data c1text c1url) = chars "2020" ∧
    ResolutionData.numero (extract_resolution_data c1text c1url) = chars "0123" ∧
    extract_institutions c1text =
      [⟨chars "Universidad Nacional de Salta y el Ministerio de Educacion",
        chars "Nacional", chars "Argentina", chars "Salta", chars "Salta"⟩,
       ⟨chars "Ministerio de Educacion", chars "Gubernamental",
        chars "Argentina", chars "Salta", chars "Salta"⟩] :=
  ⟨by decide, by decide, by decide, by decide, by decide, by decide⟩

/-- C4 counterexample: a text containing "suscrito el 5 de marzo de
2020" (valid day, recognized month, 4-digit year) and no numeric
"firmado el" match yields an empty fechaFirma: the pattern
`suscr[i|í]pto?` requires a literal "pt" and so never matches the
spelling "suscrito". -/
theorem c4_cex :
    containsSub (chars "suscrito el 5 de marzo de 2020") c4text = true ∧
    searchL matchFirmadoAt c4text = none ∧
    ConvenioData.fecha_firma (extract_convenio_data c4text) = [] ∧
    ConvenioData.fecha_firma (extract_convenio_data c4text) ≠ chars "2020-03-05" :=
  ⟨by decide, by decide, by decide, by decide⟩

/-- C4 amended: the spelled signing-date pattern matches the spelling
"suscripto" (and "suscript"; the `[i|í]` class must be followed by a
literal "pt") but not "suscrito"; for every text on which the numeric
"firmado el" pattern finds no match and the spelled pattern's first
match captures day d, month name mn (present in the month table with
value mm) and year y, extractConvenio returns fechaFirma =
y-mm-d with zero-padded components. -/
theorem c4_thm (text d mn y mm : List Char)
    (h1 : searchL matchFirmadoAt text = none)
    (h2 : searchL matchSuscriptoAt text = some (d, mn, y))
    (h3 : (lowerL mn, mm) ∈ month_map) :
    ConvenioData.fecha_firma (extract_convenio_data text) = mkFecha y mm d := by
  show fechaFirmaField text = _
  unfold fechaFirmaField
  simp only [h1, h2]
  have hnod : (month_map.map Prod.fst).Nodup := by decide
  rw [assocD_eq_of_mem _ _ _ month_map hnod h3]

/-- C4 witness: the amended theorem applied to a concrete "suscripto"
text gives the ISO date. -/
theorem c4_w :
    searchL matchFirmadoAt c4wtext = none ∧
    searchL matchSuscriptoAt c4wtext = some (chars "5", chars "marzo", chars "2020") ∧
    ConvenioData.fecha_firma (extract_convenio_data c4wtext) = chars "2020-03-05" :=
  ⟨by decide, by decide,
    (c4_thm c4wtext (chars "5") (chars "marzo") (chars "2020") (chars "03")
      (by decide) (by decide) (by decide)).trans (by decide)⟩

theorem pyZfill2_shape (l : List Char) (h1 : l.length = 1 ∨ l.length = 2)
    (h2 : allDig l) : (pyZfill2 l).length = 2 ∧ allDig (pyZfill2 l) := by
  unfold pyZfill2
  rcases h1 with h | h
  · rw [if_pos (by omega)]
    constructor
    · simp [h]
    · intro c hc
      rcases List.mem_append.mp hc with hc | hc
      · rw [List.eq_of_mem_replicate hc]; decide
      · exact h2 c hc
  · rw [if_neg (by omega)]
    exact ⟨h, h2⟩

theorem mkFecha_shape (yl : List Nat) (y m d : List Char)
    (hy : y.length ∈ yl) (hyd : allDig y)
    (hm : m.length = 1 ∨ m.length = 2) (hmd : allDig m)
    (hd : d.length = 1 ∨ d.length = 2) (hdd : allDig d) :
    dateShape yl (mkFecha y m d) := by
  obtain ⟨hm2, hmd2⟩ := pyZfill2_shape m hm hmd
  obtain ⟨hd2, hdd2⟩ := pyZfill2_shape d hd hdd
  exact ⟨y, pyZfill2 m, pyZfill2 d, rfl, hy, hyd, hm2, hmd2, hd2, hdd2⟩

theorem takeDigits4_shape : ∀ (l y r : List Char), takeDigits4 l = some (y, r) → dig4 y := by
  intro l y r h
  unfold takeDigits4 at h
  split at h
  next a b c d rest =>
    split at h
    next hd =>
      simp only [Bool.and_eq_true] at hd
      obtain ⟨⟨⟨ha, hb⟩, hc⟩, hd4⟩ := hd
      simp only [Option.some.injEq, Prod.mk.injEq] at h
      obtain ⟨h1, _⟩ := h
      subst h1
      refine ⟨rfl, ?_⟩
      intro x hx
      rcases (by simpa using hx : x = a ∨ x = b ∨ x = c ∨ x = d) with rfl | rfl | rfl | rfl <;>
        assumption
    next => simp at h
  next => simp at h

theorem takeD24_shape : ∀ (l y : List Char), takeD24 l = some y → dig234 y := by
  intro l y h
  unfold takeD24 at h
  split at h
  next a b rest =>
    split at h
    next hab =>
      simp only [Bool.and_eq_true] at hab
      obtain ⟨ha, hb⟩ := hab
      split at h
      next c rest2 =>
        split at h
        next hc =>
          split at h
          next d rest3 =>
            split at h
            next hd =>
              simp only [Option.some.injEq] at h
              subst h
              refine ⟨Or.inr (Or.inr rfl), ?_⟩
              intro x hx
              rcases (by simpa using hx : x = a ∨ x = b ∨ x = c ∨ x = d) with
                rfl | rfl | rfl | rfl <;> assumption
            next =>
              simp only [Option.some.injEq] at h
              subst h
              refine ⟨Or.inr (Or.inl rfl), ?_⟩
              intro x hx
              rcases (by simpa using hx : x = a ∨ x = b ∨ x = c) with rfl | rfl | rfl <;>
                assumption
          next =>
            simp only [Option.some.injEq] at h
            subst h
            refine ⟨Or.inr (Or.inl rfl), ?_⟩
            intro x hx
            rcases (by simpa using hx : x = a ∨ x = b ∨ x = c) with rfl | rfl | rfl <;>
              assumption
        next =>
          simp only [Option.some.injEq] at h
          subst h
          refine ⟨Or.inl rfl, ?_⟩
          intro x hx
          rcases (by simpa using hx : x = a ∨ x = b) with rfl | rfl <;> assumption
      next =>
        simp only [Option.some.injEq] at h
        subst h
        refine ⟨Or.inl rfl, ?_⟩
        intro x hx
        rcases (by simpa using hx : x = a ∨ x = b) with rfl | rfl <;> assumption
    next => simp at h
  next => simp at h

theorem d12sep_shape (seps : List Char) :
    ∀ (l d r : List Char), d12sep seps l = some (d, r) → dig12 d := by
  intro l d r h
  unfold d12sep at h
  split at h
  next c1 rest1 =>
    split at h
    next h1 =>
      split at h
      next c2 rest2 =>
        split at h
        next h2 =>
          split at h
          next c3 rest3 =>
            split at h
            next =>
              simp only [Option.some.injEq, Prod.mk.injEq] at h
              obtain ⟨hq, _⟩ := h
              subst hq
              refine ⟨Or.inr rfl, ?_⟩
              intro x hx
              rcases (by simpa using hx : x = c1 ∨ x = c2) with rfl | rfl <;> assumption
            next => simp at h
          next => simp at h
        next =>
          split at h
          next =>
            simp only [Option.some.injEq, Prod.mk.injEq] at h
            obtain ⟨hq, _⟩ := h
            subst hq
            refine ⟨Or.inl rfl, ?_⟩
            intro x hx
            rcases (by simpa using hx : x = c1) with rfl
            assumption
          next => simp at h
      next => simp at h
    next => simp at h
  next => simp at h

theorem d12end_shape : ∀ (l d : List Char), d12end l = some d → dig12 d := by
  intro l d h
  unfold d12end at h
  split at h
  next c1 rest1 =>
    split at h
    next h1 =>
      split at h
      next c2 rest2 =>
        split at h
        next h2 =>
          simp only [Option.some.injEq] at h
          subst h
          refine ⟨Or.inr rfl, ?_⟩
          intro x hx
          rcases (by simpa using hx : x = c1 ∨ x = c2) with rfl | rfl <;> assumption
        next =>
          simp only [Option.some.injEq] at h
          subst h
          refine ⟨Or.inl rfl, ?_⟩
          intro x hx
          rcases (by simpa using hx : x = c1) with rfl
          assumption
      next =>
        simp only [Option.some.injEq] at h
        subst h
        refine ⟨Or.inl rfl, ?_⟩
        intro x hx
        rcases (by simpa using hx : x = c1) with rfl
        assumption
    next => simp at h
  next => simp at h

theorem matchMesYear_shape :
    ∀ (l m y : List Char), matchMesYear l = some (m, y) → dig4 y := by
  intro l m y h
  simp only [matchMesYear] at h
  split at h
  next => simp at h
  next =>
    split at h
    next =>
      split at h
      next => simp at h
      next =>
        split at h
        next => simp at h
        next =>
          split at h
          next => simp at h
          next =>
            split at h
            next =>
              split at h
              next => simp at h
              next =>
                split at h
                next y2 r2 heq =>
                  simp only [Option.some.injEq, Prod.mk.injEq] at h
                  obtain ⟨_, h2⟩ := h
                  subst h2
                  exact takeDigits4_shape _ _ _ heq
                next => simp at h
            next => simp at h
    next => simp at h

theorem matchSpelledAt_shape :
    ∀ (l : List Char) (r : List Char × List Char × List Char),
      matchSpelledAt l = some r → dig12 r.1 ∧ dig4 r.2.2 := by
  intro l r h
  unfold matchSpelledAt at h
  split at h
  next => simp at h
  next c1 rest1 =>
    split at h
    next h1 =>
      split at h
      next c2 rest2 =>
        split at h
        next h2 =>
          split at h
          next m2 y2 heq =>
            simp only [Option.some.injEq] at h
            subst h
            refine ⟨⟨Or.inr rfl, ?_⟩, matchMesYear_shape _ _ _ heq⟩
            intro x hx
            rcases (by simpa using hx : x = c1 ∨ x = c2) with rfl | rfl <;> assumption
          next =>
            split at h
            next m2 y2 heq =>
              simp only [Option.some.injEq] at h
              subst h
              refine ⟨⟨Or.inl rfl, ?_⟩, matchMesYear_shape _ _ _ heq⟩
              intro x hx
              rcases (by simpa using hx : x = c1) with rfl
              assumption
            next => simp at h
        next =>
          split at h
          next m2 y2 heq =>
            simp only [Option.some.injEq] at h
            subst h
            refine ⟨⟨Or.inl rfl, ?_⟩, matchMesYear_shape _ _ _ heq⟩
            intro x hx
            rcases (by simpa using hx : x = c1) with rfl
            assumption
          next => simp at h
      next => simp at h
    next => simp at h

theorem matchSlashAt_shape :
    ∀ (l : List Char) (r : List Char × List Char × List Char),
      matchSlashAt l = some r → dig12 r.1 ∧ dig12 r.2.1 ∧ dig4 r.2.2 := by
  intro l r h
  unfold matchSlashAt at h
  split at h
  next d1 r1 heq1 =>
    split at h
    next m1 r2 heq2 =>
      split at h
      next y1 r3 heq3 =>
        simp only [Option.some.injEq] at h
        subst h
        exact ⟨d12sep_shape _ _ _ _ heq1, d12sep_shape _ _ _ _ heq2,
               takeDigits4_shape _ _ _ heq3⟩
      next => simp at h
    next => simp at h
  next => simp at h

theorem matchDashAt_shape :
    ∀ (l : List Char) (r : List Char × List Char × List Char),
      matchDashAt l = some r → dig4 r.1 ∧ dig12 r.2.1 ∧ dig12 r.2.2 := by
  intro l r h
  unfold matchDashAt at h
  split at h
  next y1 r1 heq1 =>
    split at h
    next r2 =>
      split at h
      next m1 r3 heq2 =>
        split at h
        next d1 heq3 =>
          simp only [Option.some.injEq] at h
          subst h
          exact ⟨takeDigits4_shape _ _ _ heq1, d12sep_shape _ _ _ _ heq2,
                 d12end_shape _ _ heq3⟩
        next => simp at h
      next => simp at h
    next => simp at h
  next => simp at h

theorem matchFirmadoAt_shape :
    ∀ (l : List Char) (r : List Char × List Char × List Char),
      matchFirmadoAt l = some r → dig12 r.1 ∧ dig12 r.2.1 ∧ dig234 r.2.2 := by
  intro l r h
  simp only [matchFirmadoAt] at h
  split at h
  next =>
    split at h
    next => simp at h
    next =>
      split at h
      next =>
        split at h
        next => simp at h
        next =>
          split at h
          next d1 r1 heq1 =>
            split at h
            next m1 r2 heq2 =>
              split at h
              next y1 heq3 =>
                simp only [Option.some.injEq] at h
                subst h
                exact ⟨d12sep_shape _ _ _ _ heq1, d12sep_shape _ _ _ _ heq2,
                       takeD24_shape _ _ heq3⟩
              next => simp at h
            next => simp at h
          next => simp at h
      next => simp at h
  next => simp at h

theorem matchSuscriptoAt_shape :
    ∀ (l : List Char) (r : List Char × List Char × List Char),
      matchSuscriptoAt l = some r → dig12 r.1 ∧ dig4 r.2.2 := by
  intro l r h
  simp only [matchSuscriptoAt] at h
  split at h
  next =>
    split at h
    next c rest =>
      split at h
      next =>
        split at h
        next =>
          split at h
          next => simp at h
          next =>
            split at h
            next =>
              split at h
              next => simp at h
              next => exact matchSpelledAt_shape _ _ h
            next => simp at h
        next => simp at h
      next => simp at h
    next => simp at h
  next => simp at h

theorem searchSpelled_shape (t : List Char) (r : List Char × List Char × List Char)
    (h : searchL matchSpelledAt t = some r) : dig12 r.1 ∧ dig4 r.2.2 :=
  searchL_imp matchSpelledAt matchSpelledAt_shape t r h

theorem searchSlash_shape (t : List Char) (r : List Char × List Char × List Char)
    (h : searchL matchSlashAt t = some r) : dig12 r.1 ∧ dig12 r.2.1 ∧ dig4 r.2.2 :=
  searchL_imp matchSlashAt matchSlashAt_shape t r h

theorem searchDash_shape (t : List Char) (r : List Char × List Char × List Char)
    (h : searchL matchDashAt t = some r) : dig4 r.1 ∧ dig12 r.2.1 ∧ dig12 r.2.2 :=
  searchL_imp matchDashAt matchDashAt_shape t r h

theorem searchFirmado_shape (t : List Char) (r : List Char × List Char × List Char)
    (h : searchL matchFirmadoAt t = some r) : dig12 r.1 ∧ dig12 r.2.1 ∧ dig234 r.2.2 :=
  searchL_imp matchFirmadoAt matchFirmadoAt_shape t r h

theorem searchSuscripto_shape (t : List Char) (r : List Char × List Char × List Char)
    (h : searchL matchSuscriptoAt t = some r) : dig12 r.1 ∧ dig4 r.2.2 :=
  searchL_imp matchSuscriptoAt matchSuscriptoAt_shape t r h

theorem month_map_vals : ∀ p ∈ month_map, p.2.length = 2 ∧ allDig p.2 := by decide

theorem month_shape (mn : List Char) :
    (assocD mn month_map (chars "01")).length = 2 ∧
    allDig (assocD mn month_map (chars "01")) :=
  assocD_pred (fun v => v.length = 2 ∧ allDig v) mn month_map (chars "01")
    month_map_vals (by constructor <;> decide)

theorem expand_shape (y : List Char) (h : dig234 y) :
    ((expand_two_digit_year y).length = 3 ∨ (expand_two_digit_year y).length = 4) ∧
    allDig (expand_two_digit_year y) := by
  obtain ⟨hl, hd⟩ := h
  unfold expand_two_digit_year
  by_cases h2 : y.length = 2
  · rw [if_pos h2]
    by_cases h50 : 50 < digitsToNat y
    · rw [if_pos h50]
      refine ⟨Or.inr ?_, ?_⟩
      · rw [List.length_append, h2]; decide
      · intro c hc
        rcases List.mem_append.mp hc with hc | hc
        · have he : chars "19" = ['1', '9'] := rfl
          rw [he] at hc
          rcases (by simpa using hc : c = '1' ∨ c = '9') with rfl | rfl <;> decide
        · exact hd c hc
    · rw [if_neg h50]
      refine ⟨Or.inr ?_, ?_⟩
      · rw [List.length_append, h2]; decide
      · intro c hc
        rcases List.mem_append.mp hc with hc | hc
        · have he : chars "20" = ['2', '0'] := rfl
          rw [he] at hc
          rcases (by simpa using hc : c = '2' ∨ c = '0') with rfl | rfl <;> decide
        · exact hd c hc
  · rw [if_neg h2]
    refine ⟨?_, hd⟩
    rcases hl with h | h | h
    · exact absurd h h2
    · exact Or.inl h
    · exact Or.inr h

theorem res_fecha_shape (text : List Char) :
    res_fecha text = [] ∨ dateShape [4] (res_fecha text) := by
  unfold res_fecha
  cases hs : searchL matchSpelledAt text with
  | some r =>
    obtain ⟨d, mname, y⟩ := r
    right
    obtain ⟨hd12, hy4⟩ := searchSpelled_shape text (d, mname, y) hs
    obtain ⟨hm2, hmd⟩ := month_shape (lowerL mname)
    exact mkFecha_shape [4] y _ d (by simp [hy4.1]) hy4.2 (Or.inr hm2) hmd hd12.1 hd12.2
  | none =>
    cases hsl : searchL matchSlashAt text with
    | some r =>
      obtain ⟨d, m, y⟩ := r
      right
      obtain ⟨hd, hm, hy⟩ := searchSlash_shape text (d, m, y) hsl
      show dateShape [4] (formatDirect d m y)
      have hne : ¬ d.length = 4 := by rcases hd.1 with h | h <;> simp [h]
      unfold formatDirect
      rw [if_neg hne]
      exact mkFecha_shape [4] y m d (by simp [hy.1]) hy.2 hm.1 hm.2 hd.1 hd.2
    | none =>
      cases hda : searchL matchDashAt text with
      | some r =>
        obtain ⟨y, m, d⟩ := r
        right
        obtain ⟨hy, hm, hd⟩ := searchDash_shape text (y, m, d) hda
        show dateShape [4] (formatDirect y m d)
        unfold formatDirect
        rw [if_pos hy.1]
        exact mkFecha_shape [4] y m d (by simp [hy.1]) hy.2 hm.1 hm.2 hd.1 hd.2
      | none => left; rfl

theorem fecha_firma_shape (text : List Char) :
    fechaFirmaField text = [] ∨ dateShape [3, 4] (fechaFirmaField text) := by
  unfold fechaFirmaField
  cases hf : searchL matchFirmadoAt text with
  | some r =>
    obtain ⟨d, m, y⟩ := r
    right
    obtain ⟨hd, hm, hy⟩ := searchFirmado_shape text (d, m, y) hf
    obtain ⟨hyl, hyd⟩ := expand_shape y hy
    exact mkFecha_shape [3, 4] _ m d (by rcases hyl with h | h <;> simp [h]) hyd
      hm.1 hm.2 hd.1 hd.2
  | none =>
    cases hsu : searchL matchSuscriptoAt text with
    | some r =>
      obtain ⟨d, mname, y⟩ := r
      right
      obtain ⟨hd, hy⟩ := searchSuscripto_shape text (d, mname, y) hsu
      obtain ⟨hm2, hmd⟩ := month_shape (lowerL mname)
      exact mkFecha_shape [3, 4] y _ d (by simp [hy.1]) hy.2 (Or.inr hm2) hmd hd.1 hd.2
    | none => left; rfl

/-- C3 amended: every emitted date field is either the empty string or a
digit-shaped dash-separated string — exactly `\d{4}-\d{2}-\d{2}` for the
resolution fecha and `\d{3,4}-\d{2}-\d{2}` for fechaFirma (a three-digit
numeric year is kept as is) — but the month and day components are not
checked against their calendar ranges, so out-of-range dates can be
emitted. -/
theorem c3_thm (text url : List Char) :
    (ResolutionData.fecha (extract_resolution_data text url) = [] ∨
      dateShape [4] (ResolutionData.fecha (extract_resolution_data text url))) ∧
    (ConvenioData.fecha_firma (extract_convenio_data text) = [] ∨
      dateShape [3, 4] (ConvenioData.fecha_firma (extract_convenio_data text))) := by
  constructor
  · exact res_fecha_shape text
  · exact fecha_firma_shape text

/-- C3 counterexample: the text "31 de febrero de 2020" yields the
resolution fecha "2020-02-31", a nonempty date string that does not
denote a valid calendar date (February 2020 has 29 days). -/
theorem c3_cex :
    ResolutionData.fecha
      (extract_resolution_data (chars "31 de febrero de 2020") (chars "u")) =
      chars "2020-02-31" ∧
    chars "2020-02-31" ≠ ([] : List Char) ∧
    specValidISODate (chars "2020-02-31") = false :=
  ⟨by decide, by decide, by decide⟩
